import Mathlib

/-!
Verification development for the sqlrest query/filter compilation layer
(`sqlrest/database.py`).  The Python source is shallowly embedded: SQLAlchemy
column types become an inductive `SqlType`, column expressions built by
`str2col` become `ColExpr`, the predicate objects built by `where_clause`
become `Pred`, and the table operations become explicit state-passing
functions over a list of rows, instrumented with a session-event trace.
-/

namespace SqlRest

/-- SQLAlchemy column/expression types relevant to `database.py`.
`nullType` models SQLAlchemy's `NullType` (the type of an expression the
library cannot infer, e.g. a call of an unregistered SQL function). -/
inductive SqlType
  | integer
  | smallInteger
  | bigInteger
  | float
  | numeric
  | string
  | boolean
  | date
  | dateTime
  | time
  | interval
  | nullType
  deriving DecidableEq, Repr

/-- Embeds `any(isinstance(c.type, type_) for type_ in types)` with
`types = [DateTime, Date, Time, SmallInteger, Integer, BigInteger, Float]`
(`where_clause.iscontinuous` in `database.py`).  In SQLAlchemy,
`SmallInteger` and `BigInteger` are subclasses of `Integer` and `Float` is a
subclass of `Numeric`; since all three integer classes are in the list the
subclass relation does not change membership, so the check is a plain match
on the type. -/
def iscontinuousType : SqlType → Bool
  | .dateTime | .date | .time | .smallInteger | .integer | .bigInteger | .float => true
  | _ => false

/-- A reflected column: name plus declared type. -/
structure Column where
  name : String
  type : SqlType
  deriving DecidableEq, Repr

/-- A reflected table: name plus columns in schema order. -/
structure Table where
  name : String
  columns : List Column
  deriving DecidableEq, Repr

/-- The expression objects produced by `str2col`: either a column of the
table or `getattr(sqlalchemy.func, name)(arg)`, a named single-argument SQL
function applied to an inner expression. -/
inductive ColExpr
  | column (c : Column)
  | function (name : String) (arg : ColExpr)
  deriving DecidableEq, Repr

/-- ASCII lower-casing of one character, as Python 2's `str.lower()` does
byte-wise. -/
def lowerChar (c : Char) : Char :=
  if 'A' ≤ c ∧ c ≤ 'Z' then Char.ofNat (c.toNat + 32) else c

/-- Python 2 `str.lower()` (ASCII byte strings). -/
def lowerStr (s : String) : String := String.mk (s.data.map lowerChar)

/-- The return type SQLAlchemy assigns to `getattr(func, name)(arg)`.  The
lookup of registered generic functions is case-insensitive (the caller
passes `lowerStr name`).  `coalesce`, `max`, `min` and `sum` take the type of
their argument (`ReturnTypeFromArgs`); `count` and `char_length` are typed
`Integer`; the `current_*`/`now`-style functions have fixed date/time types;
every unregistered function (for example `date` or `distinct`) yields an
expression of `NullType`. -/
def funcReturnType (name : String) (argType : SqlType) : SqlType :=
  if name = "coalesce" ∨ name = "max" ∨ name = "min" ∨ name = "sum" then argType
  else if name = "count" ∨ name = "char_length" then .integer
  else if name = "now" ∨ name = "current_timestamp" ∨ name = "localtimestamp"
      ∨ name = "sysdate" ∨ name = "localtime" then .dateTime
  else if name = "current_date" then .date
  else if name = "current_time" then .time
  else if name = "concat" ∨ name = "current_user" ∨ name = "session_user"
      ∨ name = "user" then .string
  else .nullType

/-- The `.type` attribute of an expression object. -/
def ColExpr.sqlType : ColExpr → SqlType
  | .column c => c.type
  | .function n arg => funcReturnType (lowerStr n) arg.sqlType

/-- Embeds `where_clause.iscontinuous`:
`any(isinstance(c.type, t) for t in types) or
 (isinstance(c, Function) and c.name.lower() in {'date'})`. -/
def iscontinuous (c : ColExpr) : Bool :=
  iscontinuousType c.sqlType ||
    (match c with
     | .function n _ => lowerStr n == "date"
     | .column _ => false)

/-! Section: the field-expression pattern of `str2col`, `^\s*(\w+)\((.+?)\)\s*$`. -/

/-- Matches Python 2 `\w` without `re.UNICODE`: `[a-zA-Z0-9_]`. -/
def isWordChar (c : Char) : Bool := c.isAlphanum || c == '_'

/-- Matches Python 2 `\s`: space, tab, newline, carriage return, vertical tab,
form feed. -/
def isSpaceChar (c : Char) : Bool :=
  c == ' ' || c == '\t' || c == '\n' || c == '\r' || c == '\x0b' || c == '\x0c'

/-- The suffix `(.+?)\)\s*$` of the pattern, applied to the characters after
the opening parenthesis.  The non-greedy group takes the least split
`contents ++ ')' ++ trailing-whitespace` with `contents` nonempty; `.` never
matches a newline, so a newline reached before a successful split fails the
whole match (every later candidate would need `.` to cross it). -/
def scanClose (acc : List Char) : List Char → Option (List Char)
  | [] => none
  | c :: rest =>
    if c == ')' && rest.all isSpaceChar then
      if acc.isEmpty then none else some acc.reverse
    else if c == '\n' then none
    else scanClose (c :: acc) rest

/-- One application of the pattern `^\s*(\w+)\((.+?)\)\s*$`: on success,
the pair (function name, captured inner expression).  The leading `\s*`
absorbs exactly the leading whitespace run (no word character is
whitespace), the greedy `\w+` the maximal word run, which must be followed
immediately by `(`. -/
def function_split (field : List Char) : Option (String × List Char) :=
  let afterWs := field.dropWhile isSpaceChar
  let w := afterWs.takeWhile isWordChar
  match afterWs.dropWhile isWordChar with
  | '(' :: rest2 =>
      if w.isEmpty then none
      else (scanClose [] rest2).map (fun inner => (String.mk w, inner))
  | _ => none

/-- The `while is_function(field)` loop of `str2col`, peeling function names
outermost-first.  The inner expression is strictly shorter than the whole,
so a fuel of the field's length always suffices. -/
def str2colQueueF : Nat → List Char → List String × List Char
  | 0, field => ([], field)
  | fuel + 1, field =>
    match function_split field with
    | none => ([], field)
    | some (n, inner) =>
        let r := str2colQueueF fuel inner
        (n :: r.1, r.2)

/-- Errors surfaced by the embedded operations.  `unknownColumn` models the
`KeyError` of `td[k]` and the `SqlRestException` of `dict2row`;
`invalidTemporalValue` models the `ValueError` raised by
`dateutil.parser.parse` on unparseable input; `typeError` the `TypeError`
it raises on a non-string argument; `indexError` the `IndexError` of
`td.values()[0]` on a zero-column table. -/
inductive SqlError
  | unknownColumn (k : String)
  | invalidTemporalValue (s : String)
  | typeError
  | indexError
  deriving DecidableEq, Repr

/-- Hash CPython 2.7 computes for an ASCII byte string on a 64-bit
platform with default (non-randomized) hashing, as its unsigned 64-bit
representation: `x = s[0] << 7`, then `x = (1000003*x) ^ ord(c)` over all
characters with 64-bit wraparound, then `x ^= len(s)`, with a final `-1`
mapped to `-2` (and the empty string hashing to 0). -/
def py2StringHash (s : List Char) : Nat :=
  match s with
  | [] => 0
  | c0 :: _ =>
      let m := 2 ^ 64
      let x0 := (c0.toNat <<< 7) % m
      let x1 := s.foldl (fun x c => ((1000003 * x) ^^^ c.toNat) % m) x0
      let x2 := x1 ^^^ s.length
      if x2 = m - 1 then m - 2 else x2

/-- Open-addressing probe of CPython 2.7's dict insertion: try slot
`i & 7`; on a collision with a different key continue with
`i = 5*i + perturb + 1` (64-bit wrap) and `perturb >>= 5`.  The fuel only
bounds the walk for totality; a free slot exists in every use below, so
the bound is never reached. -/
def py2Probe (fuel : Nat) (slots : List (Option (String × Column)))
    (i perturb : Nat) (k : String) (v : Column) : List (Option (String × Column)) :=
  match fuel with
  | 0 => slots
  | fuel + 1 =>
      match slots.getD (i % 8) none with
      | none => slots.set (i % 8) (some (k, v))
      | some kv =>
          if kv.1 == k then slots.set (i % 8) (some (k, v))
          else py2Probe fuel slots ((5 * i + perturb + 1) % 2 ^ 64) (perturb >>> 5) k v

/-- Insert one column under its name into the eight-slot table, starting
the probe at `hash & 7` with `perturb = hash`, as CPython 2.7 does. -/
def py2DictInsert (slots : List (Option (String × Column))) (k : String) (v : Column) :
    List (Option (String × Column)) :=
  let h := py2StringHash k.data
  py2Probe 64 slots (h % 8) h k v

/-- The dict `{col.name: col for col in table.columns}` as CPython 2.7
lays it out: entries inserted in schema order into the initial eight-slot
hash table.  Exact for tables of fewer than six columns — CPython grows
the table at the sixth insertion, which reorders the slots again. -/
def py2ColumnDict (cols : List Column) : List (Option (String × Column)) :=
  cols.foldl (fun slots c => py2DictInsert slots c.name c) (List.replicate 8 none)

/-- The dict's `values()`: the stored columns in hash-slot iteration
order, which is not schema order in general. -/
def py2DictValues (cols : List Column) : List Column :=
  (py2ColumnDict cols).filterMap (fun s => s.map (fun kv => kv.2))

/-- Embeds `str2col.getcolumn`: `td.values()[0]` for the wildcard, else
`td[k]`.  `td` is the Python 2 dict `{col.name: col for col in
table.columns}`: keyed lookup is by exact, case-sensitive name (column
names are unique in a reflected table, so first-match lookup agrees with
the dict), while `values()` yields the entries in the dict's hash-slot
iteration order (`py2DictValues`), not in schema order — so the wildcard
resolves to an implementation-defined column of the schema, and
`values()[0]` on a zero-column table raises `IndexError`. -/
def getcolumn (table : Table) (k : String) : Except SqlError Column :=
  if k = "*" then
    match py2DictValues table.columns with
    | [] => .error .indexError
    | c :: _ => .ok c
  else
    match table.columns.find? (fun c => c.name == k) with
    | some c => .ok c
    | none => .error (.unknownColumn k)

/-- Embeds `str2col(field, table)`: peel function names while the pattern matches,
resolve the terminal column, then apply the peeled functions
innermost-to-outermost (the `for f in reversed(queue)` loop). -/
def str2col (field : String) (table : Table) : Except SqlError ColExpr :=
  let q := str2colQueueF field.length field.data
  (getcolumn table (String.mk q.2)).map
    (fun col => q.1.foldr ColExpr.function (ColExpr.column col))

/-! Section: values, predicates and `where_clause`. -/

/-- Scalar values exchanged with the engine: SQL NULL, integers, strings,
booleans, calendar dates and timestamps. -/
inductive Value
  | null
  | int (n : Int)
  | str (s : String)
  | bool (b : Bool)
  | date (y m d : Nat)
  | datetime (y m d hh mi ss : Nat)
  deriving DecidableEq, Repr

/-- SQL equality test: comparison with NULL is never satisfied, otherwise
plain equality. -/
def veq : Value → Value → Bool
  | .null, _ => false
  | _, .null => false
  | a, b => a == b

/-- SQL `a <= b` as a satisfied/not-satisfied test: defined on two values of
the same comparable kind (integers, strings, dates, timestamps); any
comparison involving NULL or mismatched kinds is not satisfied. -/
def vle : Value → Value → Bool
  | .int a, .int b => a ≤ b
  | .str a, .str b => a ≤ b
  | .date y m d, .date y' m' d' =>
      y < y' || (y == y' && (m < m' || (m == m' && d ≤ d')))
  | .datetime y m d h i s, .datetime y' m' d' h' i' s' =>
      y < y' || (y == y' && (m < m' || (m == m' && (d < d' ||
        (d == d' && (h < h' || (h == h' && (i < i' || (i == i' && s ≤ s')))))))))
  | _, _ => false

/-- SQL `a < b`, same conventions as `vle`. -/
def vlt : Value → Value → Bool
  | .int a, .int b => a < b
  | .str a, .str b => a < b
  | .date y m d, .date y' m' d' =>
      y < y' || (y == y' && (m < m' || (m == m' && d < d')))
  | .datetime y m d h i s, .datetime y' m' d' h' i' s' =>
      y < y' || (y == y' && (m < m' || (m == m' && (d < d' ||
        (d == d' && (h < h' || (h == h' && (i < i' || (i == i' && s < s')))))))))
  | _, _ => false

/-- Predicate trees built by `where_clause`.  SQLAlchemy's variadic
`and_`/`or_` are folded into the binary connectives by `sand`/`sor`. -/
inductive Pred
  | eq (e : ColExpr) (v : Value)
  | ge (e : ColExpr) (v : Value)
  | lt (e : ColExpr) (v : Value)
  | tt
  | ff
  | and2 (p q : Pred)
  | or2 (p q : Pred)
  deriving DecidableEq, Repr

/-- Embeds `sqlalchemy.and_(*clauses)`: the empty conjunction is no restriction. -/
def sand (ps : List Pred) : Pred := ps.foldr Pred.and2 Pred.tt

/-- Embeds `sqlalchemy.or_(*clauses)`: the empty disjunction is unsatisfiable. -/
def sor (ps : List Pred) : Pred := ps.foldr Pred.or2 Pred.ff

/-- A filter value: a JSON scalar or a JSON list. -/
inductive FilterValue
  | scalar (v : Value)
  | list (vs : List Value)
  deriving DecidableEq, Repr

/-- A Filter Spec: the JSON mapping, as an association list in iteration
order. -/
abbrev Filters := List (String × FilterValue)

/-- The clause(s) `where_clause` appends for one `(k, v)` pair once
`c = str2col(k, table_)` is resolved: a half-open range (two clauses) for a
2-element list over a continuous expression, an OR of equalities for any
other list, an equality for a scalar. -/
def pairClauses (c : ColExpr) : FilterValue → List Pred
  | .list vs =>
      if iscontinuous c && vs.length == 2 then
        match vs with
        | a :: b :: _ => [Pred.ge c a, Pred.lt c b]
        | _ => []
      else
        [sor (vs.map (fun v => Pred.eq c v))]
  | .scalar v => [Pred.eq c v]

/-- The `for k, v in filters.iteritems()` loop of `where_clause`: resolve
each key (a `KeyError` propagates) and collect the clauses. -/
def whereClauses (table : Table) : Filters → Except SqlError (List Pred)
  | [] => .ok []
  | (k, v) :: rest =>
      match str2col k table with
      | .error e => .error e
      | .ok c =>
          match whereClauses table rest with
          | .error e => .error e
          | .ok more => .ok (pairClauses c v ++ more)

/-- Embeds `where_clause(filters, table_)`: the conjunction of all per-key
clauses. -/
def where_clause (table : Table) (filters : Filters) : Except SqlError Pred :=
  (whereClauses table filters).map sand

/-! Section: rows and predicate evaluation. -/

/-- A row, as a mapping from column name to value. -/
abbrev Row := List (String × Value)

/-- Look a column up in a row; an absent column reads as SQL NULL. -/
def rowGet (r : Row) (k : String) : Value :=
  match r.find? (fun kv => kv.1 == k) with
  | some kv => kv.2
  | none => .null

/-- Evaluate an expression on a row.  `F` gives the engine's semantics of
named scalar SQL functions (the function set is open-ended and executed by
the engine, spec section 6). -/
def evalColExpr (F : String → Value → Value) (r : Row) : ColExpr → Value
  | .column c => rowGet r c.name
  | .function n arg => F n (evalColExpr F r arg)

/-- Satisfaction of a predicate under a valuation of expressions. -/
def evalPred (ρ : ColExpr → Value) : Pred → Bool
  | .eq e v => veq (ρ e) v
  | .ge e v => vle v (ρ e)
  | .lt e v => vlt (ρ e) v
  | .tt => true
  | .ff => false
  | .and2 p q => evalPred ρ p && evalPred ρ q
  | .or2 p q => evalPred ρ p || evalPred ρ q

/-- A row satisfies a compiled predicate. -/
def rowMatches (F : String → Value → Value) (r : Row) (p : Pred) : Bool :=
  evalPred (evalColExpr F r) p

/-! Section: row coercion, `dict2row`. -/

/-- Split a character list on a separator character (the splitting a
string's `split(sep)` performs). -/
def splitOnChar (sep : Char) : List Char → List (List Char)
  | [] => [[]]
  | c :: rest =>
      let r := splitOnChar sep rest
      if c == sep then [] :: r
      else
        match r with
        | [] => [[c]]
        | h :: t => (c :: h) :: t

/-- One numeric component of a date/time literal: a nonempty run of ASCII
digits. -/
def parseNatPart (l : List Char) : Option Nat :=
  if l.isEmpty || !(l.all Char.isDigit) then none
  else some (l.foldl (fun acc c => acc * 10 + (c.toNat - '0'.toNat)) 0)

/-- The `YYYY-MM-DD` part of a temporal literal. -/
def parseDatePart (l : List Char) : Option (Nat × Nat × Nat) :=
  match splitOnChar '-' l with
  | [ys, ms, ds] => do
      let y ← parseNatPart ys
      let m ← parseNatPart ms
      let d ← parseNatPart ds
      if 1 ≤ m ∧ m ≤ 12 ∧ 1 ≤ d ∧ d ≤ 31 then pure (y, m, d) else none
  | _ => none

/-- The `HH:MM:SS` part of a temporal literal. -/
def parseTimePart (l : List Char) : Option (Nat × Nat × Nat) :=
  match splitOnChar ':' l with
  | [hs, ms, ss] => do
      let h ← parseNatPart hs
      let m ← parseNatPart ms
      let sec ← parseNatPart ss
      if h ≤ 23 ∧ m ≤ 59 ∧ sec ≤ 59 then pure (h, m, sec) else none
  | _ => none

/-- Model of `dateutil.parser.parse` on the literal shapes this layer
exchanges: an ISO date `YYYY-MM-DD` (time components default to zero, as in
dateutil) or a timestamp `YYYY-MM-DD HH:MM:SS`; anything else is
unparseable and raises (`none`). -/
def parseDt (s : String) : Option (Nat × Nat × Nat × Nat × Nat × Nat) :=
  match splitOnChar ' ' s.data with
  | [d] => (parseDatePart d).map (fun ymd => (ymd.1, ymd.2.1, ymd.2.2, 0, 0, 0))
  | [d, t] => do
      let ymd ← parseDatePart d
      let hms ← parseTimePart t
      pure (ymd.1, ymd.2.1, ymd.2.2, hms.1, hms.2.1, hms.2.2)
  | _ => none

/-- Coercion of a single value for a column of the given type: `date`
columns get `parse_dt(v).date()` (a calendar date, time dropped),
`datetime` columns get `parse_dt(v)` (a full timestamp), every other
declared type passes the value through unchanged.  A non-string argument to
the parser is a `TypeError`; an unparseable string a `ValueError`
(`invalidTemporalValue`). -/
def coerceValue (t : SqlType) (v : Value) : Except SqlError Value :=
  match t, v with
  | .date, .str s =>
      match parseDt s with
      | some (y, m, d, _, _, _) => .ok (.date y m d)
      | none => .error (.invalidTemporalValue s)
  | .date, _ => .error .typeError
  | .dateTime, .str s =>
      match parseDt s with
      | some (y, m, d, hh, mi, ss) => .ok (.datetime y m d hh mi ss)
      | none => .error (.invalidTemporalValue s)
  | .dateTime, _ => .error .typeError
  | _, v => .ok v

/-- Embeds `dict2row(table_, row)`: for each key in iteration order, fail with the
`SqlRestException` (`unknownColumn`) when the key is not a column, else
coerce the value as `coerceValue`.  The result keeps iteration order. -/
def dict2row (table : Table) : List (String × Value) → Except SqlError (List (String × Value))
  | [] => .ok []
  | (k, v) :: rest =>
      match table.columns.find? (fun c => c.name == k) with
      | none => .error (.unknownColumn k)
      | some col =>
          match coerceValue col.type v with
          | .error e => .error e
          | .ok v' =>
              match dict2row table rest with
              | .error e => .error e
              | .ok r => .ok ((k, v') :: r)

/-! Section: query building, i.e. filters, ordering and pagination. -/

/-- Embeds `with_filters(query, table_, filters)`: compile the Filter Spec and keep
the rows satisfying it. -/
def with_filters (F : String → Value → Value) (query : List Row) (table : Table)
    (filters : Filters) : Except SqlError (List Row) :=
  (where_clause table filters).map (fun p => query.filter (fun r => rowMatches F r p))

/-- Total comparison used to model the engine's ORDER BY on a single key:
values of the same kind compare by their natural order, values of different
kinds by an arbitrary fixed rank. -/
def vrank : Value → Nat
  | .null => 0
  | .bool _ => 1
  | .int _ => 2
  | .str _ => 3
  | .date _ _ _ => 4
  | .datetime _ _ _ _ _ _ => 5

/-- Total `a ≤ b` on values (see `vrank`). -/
def vkeyLE (a b : Value) : Bool :=
  if vrank a = vrank b then
    match a, b with
    | .null, .null => true
    | .bool x, .bool y => !x || y
    | _, _ => vle a b
  else decide (vrank a < vrank b)

/-- Insert a row into a list sorted by `le`. -/
def insertSorted (le : Row → Row → Bool) (r : Row) : List Row → List Row
  | [] => [r]
  | x :: xs => if le r x then r :: x :: xs else x :: insertSorted le r xs

/-- Stable insertion sort over rows. -/
def sortRows (le : Row → Row → Bool) : List Row → List Row
  | [] => []
  | x :: xs => insertSorted le x (sortRows le xs)

/-- The engine's `ORDER BY key` / `ORDER BY key DESC` on a materialised
result set: sort by the value of the order expression. -/
def sortByKey (F : String → Value → Value) (c : ColExpr) (descending : Bool)
    (q : List Row) : List Row :=
  sortRows (fun a b =>
    if descending then vkeyLE (evalColExpr F b c) (evalColExpr F a c)
    else vkeyLE (evalColExpr F a c) (evalColExpr F b c)) q

/-- The `orderby` argument: `None`, a bare expression string, or the
2-element list `[expression, direction]`. -/
inductive OrderArg
  | single (e : String)
  | pair (e : String) (dir : String)
  deriving DecidableEq, Repr

/-- Embeds `with_orderby(query, table_, orderby)`: nothing when no Order Spec is
supplied; otherwise unpack the optional direction (default `'ascending'`),
sort descending exactly when `direction.lower() == 'descending'`, ascending
for every other direction string. -/
def with_orderby (F : String → Value → Value) (query : List Row) (table : Table)
    (orderby : Option OrderArg) : Except SqlError (List Row) :=
  match orderby with
  | none => .ok query
  | some arg =>
      let p := match arg with
        | .pair e d => (e, d)
        | .single e => (e, "ascending")
      (str2col p.1 table).map
        (fun c => sortByKey F c (lowerStr p.2 == "descending") query)

/-- Embeds `with_pagination(query, table_, page, page_size)`:
`query.slice(page * page_size, (page + 1) * page_size)`, i.e. OFFSET
`page * page_size` and LIMIT `(page + 1) * page_size - page * page_size`. -/
def with_pagination (query : List Row) (page page_size : Nat) : List Row :=
  (query.drop (page * page_size)).take ((page + 1) * page_size - page * page_size)

/-! Section: table operations.

Each operation is embedded as a function of the table's current row list,
returning the outcome, the post-state of the row list, and the trace of
session acquisitions/releases (`self.sessionmaker()` / `session.close()`)
in program order. -/

/-- A session event: `sessionmaker()` or `session.close()`. -/
inductive SEvent
  | openS
  | closeS
  deriving DecidableEq, Repr

/-- Outcome of one embedded table operation. -/
structure OpOut (α : Type) where
  result : Except SqlError α
  rows' : List Row
  trace : List SEvent

/-- Result shape of the mutating verbs. -/
structure MutResult where
  status : String
  n_rows : Nat
  deriving DecidableEq, Repr

/-- The scalar computed by `Database.count`:
`session.query(func.count(list(table_.columns)[0])).filter(...).all()[0][0]`
— SQL `COUNT(first column)` counts the rows satisfying the filter whose
first column (in schema order) is non-NULL. -/
def countPure (F : String → Value → Value) (table : Table) (rows : List Row)
    (filters : Filters) : Except SqlError Nat :=
  match table.columns with
  | [] => .error .indexError
  | c0 :: _ =>
      (where_clause table filters).map (fun p =>
        ((rows.filter (fun r => rowMatches F r p)).filter
          (fun r => !(rowGet r c0.name == .null))).length)

/-- Embeds `Database.count(table, filters)`: opens a session, runs the count query
inside the `try`, and closes the session in the `finally`. -/
def countOp (F : String → Value → Value) (table : Table) (rows : List Row)
    (filters : Filters) : OpOut Nat :=
  ⟨countPure F table rows filters, rows, [.openS, .closeS]⟩

/-- Embeds `Database.delete(table, filters)`: opens a session, computes the
matching row count via `self.count` (which opens and closes a session of
its own), executes the delete with the same compiled predicate, and reports
the beforehand-computed count. -/
def deleteOp (F : String → Value → Value) (table : Table) (rows : List Row)
    (filters : Filters) : OpOut MutResult :=
  let c := countOp F table rows filters
  let tr := [SEvent.openS] ++ c.trace ++ [SEvent.closeS]
  match c.result with
  | .error e => ⟨.error e, rows, tr⟩
  | .ok n =>
      match where_clause table filters with
      | .error e => ⟨.error e, rows, tr⟩
      | .ok p => ⟨.ok ⟨"success", n⟩, rows.filter (fun r => !rowMatches F r p), tr⟩

/-- The `SET k = v` part of an UPDATE statement applied to one row. -/
def updateRow (vals : List (String × Value)) (r : Row) : Row :=
  r.map (fun kv =>
    match vals.find? (fun kv' => kv'.1 == kv.1) with
    | some kv' => (kv.1, kv'.2)
    | none => kv)

/-- Embeds `Database.update(table, filters, values)`: the same count-then-mutate
pattern as delete; `where_clause` and then `dict2row` are evaluated while
building the statement, before anything is executed. -/
def updateOp (F : String → Value → Value) (table : Table) (rows : List Row)
    (filters : Filters) (values : List (String × Value)) : OpOut MutResult :=
  let c := countOp F table rows filters
  let tr := [SEvent.openS] ++ c.trace ++ [SEvent.closeS]
  match c.result with
  | .error e => ⟨.error e, rows, tr⟩
  | .ok n =>
      match where_clause table filters with
      | .error e => ⟨.error e, rows, tr⟩
      | .ok p =>
          match dict2row table values with
          | .error e => ⟨.error e, rows, tr⟩
          | .ok vals =>
              ⟨.ok ⟨"success", n⟩,
                rows.map (fun r => if rowMatches F r p then updateRow vals r else r),
                tr⟩

/-- Embeds `Database.insert(table, rows)`: coerce every row inside the session,
then execute one bulk insert (statement-level atomicity: a failed batch
inserts nothing). -/
def insertOp (table : Table) (rows : List Row) (newRows : List (List (String × Value))) :
    OpOut MutResult :=
  match newRows.mapM (dict2row table) with
  | .error e => ⟨.error e, rows, [.openS, .closeS]⟩
  | .ok rs => ⟨.ok ⟨"success", rs.length⟩, rows ++ rs, [.openS, .closeS]⟩

/-- Embeds `Database.select(table, columns, filters, page, page_size, orderby)`:
the projection is resolved *before* `self.sessionmaker()` is called, so an
unresolvable column raises with no session ever opened; the query then
applies filters, ordering and pagination inside the session, and the result
rows carry the projected expressions under their label (the expression
string, or the column name when `columns is None`). -/
def selectOp (F : String → Value → Value) (table : Table) (rows : List Row)
    (columns : Option (List String)) (filters : Filters)
    (page page_size : Nat) (orderby : Option OrderArg) : OpOut (List Row) :=
  let cols : Except SqlError (List (String × ColExpr)) :=
    match columns with
    | none => .ok (table.columns.map (fun c => (c.name, ColExpr.column c)))
    | some cs => cs.mapM (fun cname => (str2col cname table).map (fun e => (cname, e)))
  match cols with
  | .error e => ⟨.error e, rows, []⟩
  | .ok cols_ =>
      let body : Except SqlError (List Row) := do
        let q1 ← with_filters F rows table filters
        let q2 ← with_orderby F q1 table orderby
        let q3 := with_pagination q2 page page_size
        pure (q3.map (fun r => cols_.map (fun ne => (ne.1, evalColExpr F r ne.2))))
      ⟨body, rows, [.openS, .closeS]⟩

/-- Embeds `Database.aggregate(table, groupby, filters, aggregate, page, page_size,
orderby)`: group-by and aggregate label expressions are resolved inside the
session; the grouped evaluation itself is performed by the external query
executor (spec section 6), passed here as `engineGroup`; ordering and
pagination are applied to its output. -/
def aggregateOp (F : String → Value → Value) (table : Table) (rows : List Row)
    (groupby : List String) (filters : Filters) (aggregate : List String)
    (page page_size : Nat) (orderby : Option OrderArg)
    (engineGroup : List (String × ColExpr) → List (String × ColExpr) → List Row → List Row) :
    OpOut (List Row) :=
  let body : Except SqlError (List Row) := do
    let groupby_ ← groupby.mapM (fun c => (str2col c table).map (fun e => (c, e)))
    let aggregate_ ← aggregate.mapM (fun a => (str2col a table).map (fun e => (a, e)))
    let q1 ← with_filters F rows table filters
    let q2 := engineGroup aggregate_ groupby_ q1
    let q3 ← with_orderby F q2 table orderby
    pure (with_pagination q3 page page_size)
  ⟨body, rows, [.openS, .closeS]⟩

/-! Section: session-trace accounting. -/

/-- Balanced well-nesting of a session trace: every release has a matching
earlier acquisition and nothing stays open at the end. -/
def sessionBalance : List SEvent → Nat → Bool
  | [], n => n == 0
  | .openS :: r, n => sessionBalance r (n + 1)
  | .closeS :: r, n =>
      match n with
      | 0 => false
      | m + 1 => sessionBalance r m

/-- A trace is well scoped when it is balanced starting from no open
session. -/
def wellScoped (tr : List SEvent) : Bool := sessionBalance tr 0

/-- Number of session acquisitions in a trace. -/
def opens (tr : List SEvent) : Nat := tr.count .openS

/-! Section: auxiliary definitions used to state the claims. -/

deriving instance DecidableEq for Except

/-- Whether an embedded operation result is a success (no exception). -/
def isOkResult {α : Type} : Except SqlError α → Bool
  | .ok _ => true
  | .error _ => false

/-- The per-key filter semantics exactly as claim C1 states it: a 2-element
list over a continuous expression is satisfied exactly when
`value[0] <= expr < value[1]` (half-open); any other list is membership in
the listed values; a scalar is equality. -/
def specPairSat (F : String → Value → Value) (row : Row) (c : ColExpr) :
    FilterValue → Bool
  | .list vs =>
      if iscontinuous c && vs.length == 2 then
        vle (vs.getD 0 .null) (evalColExpr F row c)
          && vlt (evalColExpr F row c) (vs.getD 1 .null)
      else vs.any (fun w => veq (evalColExpr F row c) w)
  | .scalar w => veq (evalColExpr F row c) w

/-- The classification rule exactly as claim C2 states it: an expression
with no applied functions is continuous exactly when the terminal column's
type is in the continuous set; an expression applying at least one function
is classified *only* by the allow-list, i.e. continuous exactly when the
outermost function's name lower-cases to `date`. -/
def claimC2Classifier : ColExpr → Bool
  | .column c => iscontinuousType c.type
  | .function n _ => lowerStr n == "date"

/-- A field-expression string of nested single-argument calls:
`mkFieldExpr [f1, f2] x = "f1(f2(x))"`. -/
def mkFieldExpr (fs : List String) (x : String) : String :=
  fs.foldr (fun f acc => f ++ "(" ++ acc ++ ")") x

/-- Character-level image of `mkFieldExpr`. -/
def mkL (fs : List (List Char)) (x : List Char) : List Char :=
  fs.foldr (fun f acc => f ++ '(' :: (acc ++ [')'])) x

/-! Section: theorems.  Everything from here on settles the claims. -/

/-- Helper: `slice(page*s, (page+1)*s)` takes exactly `s` rows. -/
lemma with_pagination_eq (q : List Row) (page size : Nat) :
    with_pagination q page size = (q.drop (page * size)).take size := by
  unfold with_pagination
  congr 1
  rw [Nat.succ_mul, Nat.add_sub_cancel_left]

/-- C6: pagination resolves to `offset = page * page_size` and
`limit = page_size` on the filtered, ordered result set; page 0 of size 100
is rows [0,100), page 2 of size 50 is rows [100,150); pagination only
slices the query (the result is a contiguous segment of it), it never
filters rows. -/
theorem c6_pagination :
    (∀ (q : List Row) (page size : Nat),
        with_pagination q page size = (q.drop (page * size)).take size
        ∧ ∃ l r, q = l ++ with_pagination q page size ++ r)
    ∧ (∀ q : List Row, with_pagination q 0 100 = q.take 100)
    ∧ (∀ q : List Row, with_pagination q 2 50 = (q.drop 100).take 50) := by
  refine ⟨fun q page size => ⟨with_pagination_eq q page size, ?_⟩,
    fun q => by simpa using with_pagination_eq q 0 100,
    fun q => by simpa using with_pagination_eq q 2 50⟩
  refine ⟨q.take (page * size), (q.drop (page * size)).drop size, ?_⟩
  rw [with_pagination_eq, List.append_assoc,
    List.take_append_drop size (q.drop (page * size)),
    List.take_append_drop (page * size) q]

/-- Helper: the session trace of `countOp` is one open/close pair. -/
lemma countOp_trace (F : String → Value → Value) (table : Table) (rows : List Row)
    (filters : Filters) :
    (countOp F table rows filters).trace = [SEvent.openS, SEvent.closeS] := rfl

/-- Helper: the session trace of `deleteOp` is two well-nested open/close
pairs (its own session wrapping the one of the nested `count` call), on
every exit path. -/
lemma deleteOp_trace (F : String → Value → Value) (table : Table) (rows : List Row)
    (filters : Filters) :
    (deleteOp F table rows filters).trace
      = [SEvent.openS, SEvent.openS, SEvent.closeS, SEvent.closeS] := by
  unfold deleteOp countOp
  cases countPure F table rows filters with
  | error e => rfl
  | ok n =>
      cases where_clause table filters with
      | error e => rfl
      | ok p => rfl

/-- Helper: the session trace of `updateOp`, on every exit path. -/
lemma updateOp_trace (F : String → Value → Value) (table : Table) (rows : List Row)
    (filters : Filters) (values : List (String × Value)) :
    (updateOp F table rows filters values).trace
      = [SEvent.openS, SEvent.openS, SEvent.closeS, SEvent.closeS] := by
  unfold updateOp countOp
  cases countPure F table rows filters with
  | error e => rfl
  | ok n =>
      cases where_clause table filters with
      | error e => rfl
      | ok p =>
          cases dict2row table values with
          | error e => rfl
          | ok vals => rfl

/-- Helper: the session trace of `insertOp`, on every exit path. -/
lemma insertOp_trace (table : Table) (rows : List Row)
    (newRows : List (List (String × Value))) :
    (insertOp table rows newRows).trace = [SEvent.openS, SEvent.closeS] := by
  unfold insertOp
  cases newRows.mapM (dict2row table) with
  | error e => rfl
  | ok rs => rfl

/-- Helper: the session trace of `selectOp`: empty when the projection
fails to resolve (that happens before `sessionmaker()` is called), one
open/close pair otherwise. -/
lemma selectOp_trace (F : String → Value → Value) (table : Table) (rows : List Row)
    (columns : Option (List String)) (filters : Filters)
    (page page_size : Nat) (orderby : Option OrderArg) :
    (selectOp F table rows columns filters page page_size orderby).trace
        = [SEvent.openS, SEvent.closeS]
    ∨ (selectOp F table rows columns filters page page_size orderby).trace = [] := by
  unfold selectOp
  cases columns with
  | none => exact Or.inl rfl
  | some cs =>
      cases h : cs.mapM (fun cname => (str2col cname table).map (fun e => (cname, e))) with
      | error e => simp only [h]; exact Or.inr trivial
      | ok cols_ => simp only [h]; exact Or.inl trivial

/-- Helper: the session trace of `aggregateOp`, on every exit path. -/
lemma aggregateOp_trace (F : String → Value → Value) (table : Table) (rows : List Row)
    (groupby : List String) (filters : Filters) (aggregate : List String)
    (page page_size : Nat) (orderby : Option OrderArg)
    (engineGroup : List (String × ColExpr) → List (String × ColExpr) → List Row → List Row) :
    (aggregateOp F table rows groupby filters aggregate page page_size orderby
        engineGroup).trace = [SEvent.openS, SEvent.closeS] := rfl

/-- C8 counterexample: a `delete` call causes two session acquisitions —
its own plus the one performed by the nested `count` call — so the claim
that every table operation acquires exactly one session per call is false
at this input. -/
theorem c8_counterexample :
    opens (deleteOp (fun _ v => v) ⟨"t", [⟨"id", SqlType.integer⟩]⟩ [] []).trace = 2
    ∧ (2 : Nat) ≠ 1 := by
  constructor
  · rw [deleteOp_trace]
    rfl
  · decide

/-- C8 amended: every table operation releases every session it acquires
on every exit path (each trace is balanced and well nested, ending with no
session open); `count`, `insert` and `aggregate` acquire exactly one
session per call, `select` acquires one unless column resolution fails
before the session is created (then it acquires none), and `delete` and
`update` acquire exactly two — their own plus one through the nested
`count` call. -/
theorem c8_amended_session_discipline :
    (∀ F table rows filters,
        wellScoped (countOp F table rows filters).trace = true
        ∧ opens (countOp F table rows filters).trace = 1)
    ∧ (∀ table rows newRows,
        wellScoped (insertOp table rows newRows).trace = true
        ∧ opens (insertOp table rows newRows).trace = 1)
    ∧ (∀ F table rows gb filters agg page size ob eg,
        wellScoped (aggregateOp F table rows gb filters agg page size ob eg).trace = true
        ∧ opens (aggregateOp F table rows gb filters agg page size ob eg).trace = 1)
    ∧ (∀ F table rows cols filters page size ob,
        wellScoped (selectOp F table rows cols filters page size ob).trace = true
        ∧ opens (selectOp F table rows cols filters page size ob).trace ≤ 1)
    ∧ (∀ F table rows filters,
        wellScoped (deleteOp F table rows filters).trace = true
        ∧ opens (deleteOp F table rows filters).trace = 2)
    ∧ (∀ F table rows filters values,
        wellScoped (updateOp F table rows filters values).trace = true
        ∧ opens (updateOp F table rows filters values).trace = 2) := by
  refine ⟨fun F table rows filters => ?_, fun table rows newRows => ?_,
    fun F table rows gb filters agg page size ob eg => ?_,
    fun F table rows cols filters page size ob => ?_,
    fun F table rows filters => ?_, fun F table rows filters values => ?_⟩
  · rw [countOp_trace]
    exact ⟨rfl, rfl⟩
  · rw [insertOp_trace]
    exact ⟨rfl, rfl⟩
  · rw [aggregateOp_trace]
    exact ⟨rfl, rfl⟩
  · rcases selectOp_trace F table rows cols filters page size ob with h | h <;> rw [h]
    · exact ⟨rfl, by decide⟩
    · exact ⟨rfl, by decide⟩
  · rw [deleteOp_trace]
    exact ⟨rfl, rfl⟩
  · rw [updateOp_trace]
    exact ⟨rfl, rfl⟩

/-- C10: with an Order Spec `[expression, direction]`, descending order is
used exactly when the direction string lower-cases to `descending`; every
other direction string — `desc` included — silently yields an ascending
sort instead of raising; with no Order Spec the query is returned without
any ordering. -/
theorem c10_order_direction (F : String → Value → Value) (q : List Row) (table : Table)
    (e d : String) (c : ColExpr) (h : str2col e table = .ok c) :
    with_orderby F q table none = .ok q
    ∧ with_orderby F q table (some (.pair e d))
        = .ok (sortByKey F c (lowerStr d == "descending") q)
    ∧ (lowerStr d ≠ "descending" →
        with_orderby F q table (some (.pair e d)) = .ok (sortByKey F c false q))
    ∧ with_orderby F q table (some (.pair e "desc")) = .ok (sortByKey F c false q)
    ∧ with_orderby F q table (some (.single e)) = .ok (sortByKey F c false q) := by
  have hpair : ∀ d' : String, with_orderby F q table (some (.pair e d'))
      = .ok (sortByKey F c (lowerStr d' == "descending") q) := by
    intro d'
    show (str2col e table).map
        (fun c => sortByKey F c (lowerStr d' == "descending") q) = _
    rw [h]
    rfl
  refine ⟨rfl, hpair d, fun hne => ?_, ?_, ?_⟩
  · rw [hpair d, beq_eq_false_iff_ne.mpr hne]
  · rw [hpair "desc", show (lowerStr "desc" == "descending") = false from by decide]
  · show (str2col e table).map
        (fun c => sortByKey F c (lowerStr "ascending" == "descending") q) = _
    rw [h, show (lowerStr "ascending" == "descending") = false from by decide]
    rfl

/-- C10 witness: a concrete table and order specs. -/
theorem c10_witness :
    str2col "age" ⟨"t", [⟨"age", SqlType.integer⟩]⟩
        = .ok (ColExpr.column ⟨"age", SqlType.integer⟩)
    ∧ with_orderby (fun _ v => v) [] ⟨"t", [⟨"age", SqlType.integer⟩]⟩
        (some (.pair "age" "garbage"))
        = .ok (sortByKey (fun _ v => v) (ColExpr.column ⟨"age", SqlType.integer⟩) false []) := by
  refine ⟨by decide, ?_⟩
  exact (c10_order_direction (fun _ v => v) [] ⟨"t", [⟨"age", SqlType.integer⟩]⟩
    "age" "garbage" (ColExpr.column ⟨"age", SqlType.integer⟩) (by decide)).2.2.1 (by decide)

/-- Helper: the value `Database.count` computes, when the table has columns
and the filters compile. -/
lemma countPure_eq (F : String → Value → Value) (table : Table) (rows : List Row)
    (filters : Filters) (p : Pred) (c0 : Column) (cs : List Column)
    (hcols : table.columns = c0 :: cs)
    (hp : where_clause table filters = .ok p) :
    countPure F table rows filters
      = .ok (((rows.filter (fun r => rowMatches F r p)).filter
          (fun r => !(rowGet r c0.name == .null))).length) := by
  unfold countPure
  rw [hcols, hp]
  rfl

/-- C4: `delete` returns status `success` with `n_rows` equal to the count
computed beforehand on the pre-state by the nested `count` call — that
count being the number of filter-matching rows whose *first column in
schema order* is non-NULL (a `COUNT(first_column)` aggregate, not a
row-count primitive) — and then removes exactly the rows matching the same
compiled filter predicate. -/
theorem c4_delete_semantics (F : String → Value → Value) (table : Table)
    (rows : List Row) (filters : Filters) (p : Pred) (c0 : Column) (cs : List Column)
    (hcols : table.columns = c0 :: cs)
    (hp : where_clause table filters = .ok p) :
    (deleteOp F table rows filters).result
      = .ok ⟨"success", ((rows.filter (fun r => rowMatches F r p)).filter
          (fun r => !(rowGet r c0.name == .null))).length⟩
    ∧ (deleteOp F table rows filters).rows'
        = rows.filter (fun r => !rowMatches F r p)
    ∧ (deleteOp F table rows filters).result
        = (countOp F table rows filters).result.map (fun n => ⟨"success", n⟩) := by
  have hc := countPure_eq F table rows filters p c0 cs hcols hp
  unfold deleteOp countOp
  simp only [hc, hp]
  refine ⟨?_, ?_, ?_⟩ <;> trivial

/-- C4 witness: deleting with an empty filter from a two-row table whose
second row has a NULL first column: both rows are deleted, but the
reported `n_rows` is 1, because the beforehand count counts non-null
values of the first column. -/
theorem c4_witness :
    (⟨"t", [⟨"id", SqlType.integer⟩]⟩ : Table).columns = ⟨"id", SqlType.integer⟩ :: []
    ∧ where_clause ⟨"t", [⟨"id", SqlType.integer⟩]⟩ [] = .ok Pred.tt
    ∧ (deleteOp (fun _ v => v) ⟨"t", [⟨"id", SqlType.integer⟩]⟩
        [[("id", Value.int 1)], [("id", Value.null)]] []).result
      = .ok ⟨"success", (([[("id", Value.int 1)], [("id", Value.null)]].filter
          (fun r => rowMatches (fun _ v => v) r Pred.tt)).filter
          (fun r => !(rowGet r "id" == .null))).length⟩ := by
  refine ⟨rfl, by decide, ?_⟩
  exact (c4_delete_semantics (fun _ v => v) ⟨"t", [⟨"id", SqlType.integer⟩]⟩
    [[("id", Value.int 1)], [("id", Value.null)]] [] Pred.tt
    ⟨"id", SqlType.integer⟩ [] rfl (by decide)).1

/-- Helper: a values mapping containing a key absent from the schema, or a
string value for a date/datetime column that does not parse, always fails
coercion. -/
lemma dict2row_fails (table : Table) :
    ∀ values : List (String × Value),
    ((∃ kv ∈ values, table.columns.find? (fun c => c.name == kv.1) = none)
      ∨ (∃ kv ∈ values, ∃ s col, kv.2 = Value.str s
          ∧ table.columns.find? (fun c => c.name == kv.1) = some col
          ∧ (col.type = SqlType.date ∨ col.type = SqlType.dateTime)
          ∧ parseDt s = none)) →
    ∃ e, dict2row table values = .error e := by
  intro values
  induction values with
  | nil =>
      rintro (⟨kv, hmem, _⟩ | ⟨kv, hmem, _⟩) <;> exact absurd hmem (List.not_mem_nil kv)
  | cons hd rest ih =>
      intro hbad
      obtain ⟨k, v⟩ := hd
      cases hf : table.columns.find? (fun c => c.name == k) with
      | none => exact ⟨.unknownColumn k, by simp [dict2row, hf]⟩
      | some col =>
          cases hc : coerceValue col.type v with
          | error e => exact ⟨e, by simp [dict2row, hf, hc]⟩
          | ok v' =>
              have hrest : ∃ e, dict2row table rest = .error e := by
                apply ih
                rcases hbad with ⟨kv₀, hmem, h0⟩ | ⟨kv₀, hmem, s, col₀, hv, hf₀, htype, hparse⟩
                · rcases List.mem_cons.mp hmem with rfl | hmem'
                  · rw [hf] at h0
                    cases h0
                  · exact Or.inl ⟨kv₀, hmem', h0⟩
                · rcases List.mem_cons.mp hmem with rfl | hmem'
                  · exfalso
                    rw [hf] at hf₀
                    cases hf₀
                    obtain rfl : v = Value.str s := hv
                    rcases htype with ht | ht <;> rw [ht] at hc <;>
                      simp [coerceValue, hparse] at hc
                  · exact Or.inr ⟨kv₀, hmem', s, col₀, hv, hf₀, htype, hparse⟩
              obtain ⟨e, he⟩ := hrest
              exact ⟨e, by simp [dict2row, hf, hc, he]⟩

/-- C5: row coercion fails with `UnknownColumn` as soon as a key is absent
from the schema (and a mapping containing any absent key never coerces);
a string value for a `date` column parses to a calendar date with no time
component; one for a `datetime` column parses to a full timestamp; values
for every other declared column type pass through unchanged; and an
unparseable date/datetime string fails with `InvalidTemporalValue`. -/
theorem c5_row_coercion (table : Table) :
    (∀ (k : String) (v : Value) (rest : List (String × Value)),
        table.columns.find? (fun c => c.name == k) = none →
        dict2row table ((k, v) :: rest) = .error (.unknownColumn k))
    ∧ (∀ row : List (String × Value),
        (∃ kv ∈ row, table.columns.find? (fun c => c.name == kv.1) = none) →
        isOkResult (dict2row table row) = false)
    ∧ (∀ (k : String) (col : Column) (s : String) (y m d hh mi ss : Nat),
        table.columns.find? (fun c => c.name == k) = some col →
        col.type = SqlType.date → parseDt s = some (y, m, d, hh, mi, ss) →
        dict2row table [(k, Value.str s)] = .ok [(k, Value.date y m d)])
    ∧ (∀ (k : String) (col : Column) (s : String) (y m d hh mi ss : Nat),
        table.columns.find? (fun c => c.name == k) = some col →
        col.type = SqlType.dateTime → parseDt s = some (y, m, d, hh, mi, ss) →
        dict2row table [(k, Value.str s)] = .ok [(k, Value.datetime y m d hh mi ss)])
    ∧ (∀ (k : String) (col : Column) (v : Value),
        table.columns.find? (fun c => c.name == k) = some col →
        col.type ≠ SqlType.date → col.type ≠ SqlType.dateTime →
        dict2row table [(k, v)] = .ok [(k, v)])
    ∧ (∀ (k : String) (col : Column) (s : String),
        table.columns.find? (fun c => c.name == k) = some col →
        (col.type = SqlType.date ∨ col.type = SqlType.dateTime) →
        parseDt s = none →
        dict2row table [(k, Value.str s)] = .error (.invalidTemporalValue s)) := by
  refine ⟨fun k v rest hf => by simp [dict2row, hf],
    fun row hbad => ?_,
    fun k col s y m d hh mi ss hf ht hp => by simp [dict2row, hf, ht, coerceValue, hp],
    fun k col s y m d hh mi ss hf ht hp => by simp [dict2row, hf, ht, coerceValue, hp],
    fun k col v hf h1 h2 => ?_,
    fun k col s hf ht hp => ?_⟩
  · obtain ⟨e, he⟩ := dict2row_fails table row (Or.inl hbad)
    rw [he]
    rfl
  · have hcv : coerceValue col.type v = .ok v := by
      cases hty : col.type <;> first
        | rfl
        | (exfalso; exact h1 hty)
        | (exfalso; exact h2 hty)
    simp [dict2row, hf, hcv]
  · rcases ht with ht | ht <;> simp [dict2row, hf, ht, coerceValue, hp]

/-- C5 witness: a `date`-typed column stores `2020-01-15` as a calendar
date, and an unparseable date string fails with `InvalidTemporalValue`. -/
theorem c5_witness :
    ((⟨"t", [⟨"birthdate", SqlType.date⟩]⟩ : Table).columns.find?
        (fun c => c.name == "birthdate") = some ⟨"birthdate", SqlType.date⟩)
    ∧ parseDt "2020-01-15" = some (2020, 1, 15, 0, 0, 0)
    ∧ dict2row ⟨"t", [⟨"birthdate", SqlType.date⟩]⟩ [("birthdate", Value.str "2020-01-15")]
        = .ok [("birthdate", Value.date 2020 1 15)]
    ∧ dict2row ⟨"t", [⟨"birthdate", SqlType.date⟩]⟩ [("birthdate", Value.str "notadate")]
        = .error (.invalidTemporalValue "notadate") := by
  refine ⟨by decide, by decide, ?_, ?_⟩
  · exact (c5_row_coercion ⟨"t", [⟨"birthdate", SqlType.date⟩]⟩).2.2.1
      "birthdate" ⟨"birthdate", SqlType.date⟩ "2020-01-15" 2020 1 15 0 0 0
      (by decide) rfl (by decide)
  · exact (c5_row_coercion ⟨"t", [⟨"birthdate", SqlType.date⟩]⟩).2.2.2.2.2
      "birthdate" ⟨"birthdate", SqlType.date⟩ "notadate"
      (by decide) (Or.inl rfl) (by decide)

/-- C9: when the `values` mapping of an update contains a key absent from
the schema or an unparseable date/datetime string, the update raises and
leaves every row of the table unmodified; the session trace shows that the
preceding nested count call still ran (two sessions opened and closed). -/
theorem c9_update_atomicity (F : String → Value → Value) (table : Table)
    (rows : List Row) (filters : Filters) (values : List (String × Value))
    (hbad : (∃ kv ∈ values, table.columns.find? (fun c => c.name == kv.1) = none)
      ∨ (∃ kv ∈ values, ∃ s col, kv.2 = Value.str s
          ∧ table.columns.find? (fun c => c.name == kv.1) = some col
          ∧ (col.type = SqlType.date ∨ col.type = SqlType.dateTime)
          ∧ parseDt s = none)) :
    isOkResult (updateOp F table rows filters values).result = false
    ∧ (updateOp F table rows filters values).rows' = rows
    ∧ (updateOp F table rows filters values).trace
        = [SEvent.openS, SEvent.openS, SEvent.closeS, SEvent.closeS] := by
  obtain ⟨e, he⟩ := dict2row_fails table values hbad
  unfold updateOp countOp
  cases hcp : countPure F table rows filters with
  | error e' => exact ⟨rfl, rfl, rfl⟩
  | ok n =>
      cases hwc : where_clause table filters with
      | error e' => exact ⟨rfl, rfl, rfl⟩
      | ok p =>
          simp only [he]
          refine ⟨?_, ?_, ?_⟩ <;> trivial

/-- C9 witness: updating a table with a value that does not parse as a
date raises and leaves the single row unmodified. -/
theorem c9_witness :
    isOkResult (updateOp (fun _ v => v) ⟨"t", [⟨"birthdate", SqlType.date⟩]⟩
        [[("birthdate", Value.date 2000 1 1)]] [] [("birthdate", Value.str "junk")]).result
      = false
    ∧ (updateOp (fun _ v => v) ⟨"t", [⟨"birthdate", SqlType.date⟩]⟩
        [[("birthdate", Value.date 2000 1 1)]] [] [("birthdate", Value.str "junk")]).rows'
      = [[("birthdate", Value.date 2000 1 1)]] := by
  have h := c9_update_atomicity (fun _ v => v) ⟨"t", [⟨"birthdate", SqlType.date⟩]⟩
    [[("birthdate", Value.date 2000 1 1)]] [] [("birthdate", Value.str "junk")]
    (Or.inr ⟨("birthdate", Value.str "junk"), by decide, "junk",
      ⟨"birthdate", SqlType.date⟩, rfl, by decide, Or.inl rfl, by decide⟩)
  exact ⟨h.1, h.2.1⟩

/-- Helper: when the pattern does not match, the peeling loop leaves the
field unchanged, whatever the fuel. -/
lemma str2colQueueF_of_none {l : List Char} (h : function_split l = none) :
    ∀ fuel, str2colQueueF fuel l = ([], l) := by
  intro fuel
  cases fuel with
  | zero => rfl
  | succ n => simp [str2colQueueF, h]

/-- Helper: every slot of an empty hash table reads as empty. -/
lemma getD_replicate_none {α : Type} : ∀ n j : Nat,
    (List.replicate n (none : Option α)).getD j none = none := by
  intro n
  induction n with
  | zero => intro j; cases j <;> rfl
  | succ n ih =>
      intro j
      cases j with
      | zero => rfl
      | succ j => simp [List.replicate_succ, List.getD_cons_succ, ih]

/-- Helper: an empty hash table has no values. -/
lemma filterMap_replicate_none : ∀ n : Nat,
    ((List.replicate n (none : Option (String × Column))).filterMap
      (fun s => s.map (fun kv => kv.2))) = [] := by
  intro n
  induction n with
  | zero => rfl
  | succ n ih => simp [List.replicate_succ, List.filterMap_cons, ih]

/-- Helper: a hash table holding exactly one entry has exactly its value. -/
lemma filterMap_set_replicate : ∀ (n j : Nat) (e : String × Column), j < n →
    (((List.replicate n (none : Option (String × Column))).set j (some e)).filterMap
      (fun s => s.map (fun kv => kv.2))) = [e.2] := by
  intro n
  induction n with
  | zero => intro j e h; exact absurd h (Nat.not_lt_zero j)
  | succ n ih =>
      intro j e h
      cases j with
      | zero =>
          simp [List.replicate_succ, List.filterMap_cons, filterMap_replicate_none]
      | succ j =>
          simp only [List.replicate_succ, List.set_cons_succ, List.filterMap_cons]
          exact ih j e (Nat.lt_of_succ_lt_succ h)

/-- Helper: probing an empty slot stores the entry there at once. -/
lemma py2Probe_empty (fuel : Nat) (slots : List (Option (String × Column)))
    (i perturb : Nat) (k : String) (v : Column)
    (h : slots.getD (i % 8) none = none) :
    py2Probe (fuel + 1) slots i perturb k v = slots.set (i % 8) (some (k, v)) := by
  unfold py2Probe
  rw [h]

/-- Helper: the column dict of a single-column table holds exactly that
column, whatever its name hashes to. -/
lemma py2DictValues_single (c : Column) : py2DictValues [c] = [c] := by
  have hins : py2ColumnDict [c]
      = (List.replicate 8 none).set ((py2StringHash c.name.data % 8) % 8)
          (some (c.name, c)) := by
    show py2DictInsert (List.replicate 8 none) c.name c = _
    show py2Probe 64 (List.replicate 8 none) (py2StringHash c.name.data % 8)
      (py2StringHash c.name.data) c.name c = _
    exact py2Probe_empty 63 _ _ _ _ _ (getD_replicate_none 8 _)
  unfold py2DictValues
  rw [hins]
  exact filterMap_set_replicate 8 _ (c.name, c) (Nat.mod_lt _ (by decide))

/-- C7 counterexample: on the schema `(one, two, three)` the first column
in schema order is `one`, but `str2col` resolves `*` to the column
`three` — the first entry of the Python 2 column dict in hash-slot
iteration order — so the wildcard does not resolve to the first column in
schema order. -/
theorem c7_counterexample :
    (⟨"t", [⟨"one", SqlType.integer⟩, ⟨"two", SqlType.integer⟩,
        ⟨"three", SqlType.integer⟩]⟩ : Table).columns.head?
      = some ⟨"one", SqlType.integer⟩
    ∧ str2col "*" ⟨"t", [⟨"one", SqlType.integer⟩, ⟨"two", SqlType.integer⟩,
        ⟨"three", SqlType.integer⟩]⟩
      = .ok (ColExpr.column ⟨"three", SqlType.integer⟩)
    ∧ (⟨"three", SqlType.integer⟩ : Column) ≠ ⟨"one", SqlType.integer⟩ := by
  refine ⟨rfl, by decide, by decide⟩

/-- C7 amended: resolving the wildcard `*` yields the first entry of the
column dict in its hash-slot iteration order — an implementation-defined
column of the schema, which is the column itself for a single-column
schema but not in general the first column in schema order — while any
other terminal string requires an exact, case-sensitive match against a
schema column name, and resolution fails with the key error when the name
is absent. -/
theorem c7_amended_wildcard_resolution (table : Table) :
    (table.columns.length < 6 →
        str2col "*" table = match py2DictValues table.columns with
          | [] => .error .indexError
          | c :: _ => .ok (ColExpr.column c))
    ∧ (∀ c : Column, table.columns = [c] → str2col "*" table = .ok (ColExpr.column c))
    ∧ (∀ (k : String) (col : Column), function_split k.data = none → k ≠ "*" →
        table.columns.find? (fun c => c.name == k) = some col →
        str2col k table = .ok (ColExpr.column col))
    ∧ (∀ k : String, function_split k.data = none → k ≠ "*" →
        table.columns.find? (fun c => c.name == k) = none →
        str2col k table = .error (.unknownColumn k)) := by
  refine ⟨fun _hlen => ?_, fun c hc => ?_, fun k col hsplit hne hf => ?_,
    fun k hsplit hne hf => ?_⟩
  · show (getcolumn table (String.mk ("*".data))).map
        (fun col => ([] : List String).foldr ColExpr.function (ColExpr.column col)) = _
    show (getcolumn table "*").map _ = _
    unfold getcolumn
    rw [if_pos rfl]
    cases py2DictValues table.columns with
    | nil => rfl
    | cons c cs => rfl
  · show (getcolumn table (String.mk ("*".data))).map
        (fun col => ([] : List String).foldr ColExpr.function (ColExpr.column col)) = _
    show (getcolumn table "*").map _ = _
    unfold getcolumn
    rw [if_pos rfl, hc, py2DictValues_single]
    rfl
  · have hq := str2colQueueF_of_none hsplit k.length
    show (getcolumn table (String.mk (str2colQueueF k.length k.data).2)).map
        (fun col => (str2colQueueF k.length k.data).1.foldr ColExpr.function
          (ColExpr.column col)) = _
    rw [hq]
    show (getcolumn table k).map _ = _
    unfold getcolumn
    rw [if_neg hne, hf]
    rfl
  · have hq := str2colQueueF_of_none hsplit k.length
    show (getcolumn table (String.mk (str2colQueueF k.length k.data).2)).map
        (fun col => (str2colQueueF k.length k.data).1.foldr ColExpr.function
          (ColExpr.column col)) = _
    rw [hq]
    show (getcolumn table k).map _ = _
    unfold getcolumn
    rw [if_neg hne, hf]
    rfl

/-- C7 witness: on a single-column table the wildcard resolves to that
column; on a two-column table the exact name `Age` resolves while the
lower-cased `age` is rejected. -/
theorem c7_witness :
    (⟨"t", [⟨"x", SqlType.string⟩]⟩ : Table).columns = [⟨"x", SqlType.string⟩]
    ∧ str2col "*" ⟨"t", [⟨"x", SqlType.string⟩]⟩
        = .ok (ColExpr.column ⟨"x", SqlType.string⟩)
    ∧ str2col "Age" ⟨"t", [⟨"id", SqlType.integer⟩, ⟨"Age", SqlType.integer⟩]⟩
        = .ok (ColExpr.column ⟨"Age", SqlType.integer⟩)
    ∧ str2col "age" ⟨"t", [⟨"id", SqlType.integer⟩, ⟨"Age", SqlType.integer⟩]⟩
        = .error (.unknownColumn "age") := by
  refine ⟨rfl, ?_, ?_, ?_⟩
  · exact (c7_amended_wildcard_resolution ⟨"t", [⟨"x", SqlType.string⟩]⟩).2.1
      ⟨"x", SqlType.string⟩ rfl
  · exact (c7_amended_wildcard_resolution ⟨"t", [⟨"id", SqlType.integer⟩,
      ⟨"Age", SqlType.integer⟩]⟩).2.2.1 "Age" ⟨"Age", SqlType.integer⟩
      (by decide) (by decide) (by decide)
  · exact (c7_amended_wildcard_resolution ⟨"t", [⟨"id", SqlType.integer⟩,
      ⟨"Age", SqlType.integer⟩]⟩).2.2.2 "age" (by decide) (by decide) (by decide)

/-- C2 counterexample: `count(distinct(x))` over a string column applies a
function whose name is not `date`, so the claim classifies it
non-continuous; the code classifies it continuous, because `iscontinuous`
also tests the SQLAlchemy-inferred `.type` of the expression and
`func.count(...)` is typed `Integer`. -/
theorem c2_counterexample :
    str2col "count(distinct(x))" ⟨"t", [⟨"x", SqlType.string⟩]⟩
      = .ok (ColExpr.function "count"
          (ColExpr.function "distinct" (ColExpr.column ⟨"x", SqlType.string⟩)))
    ∧ claimC2Classifier (ColExpr.function "count"
        (ColExpr.function "distinct" (ColExpr.column ⟨"x", SqlType.string⟩))) = false
    ∧ iscontinuous (ColExpr.function "count"
        (ColExpr.function "distinct" (ColExpr.column ⟨"x", SqlType.string⟩))) = true := by
  refine ⟨by decide, by decide, by decide⟩

/-- C2 amended: an expression with no applied functions is continuous
exactly when the terminal column's declared type is among date, datetime,
time, small-integer, integer, big-integer, float.  For an expression that
applies at least one function, the code consults the allow-list `{date}`
*in disjunction with* the SQLAlchemy-inferred return type of the outermost
function: the expression is continuous iff that inferred type is in the
continuous set or the outermost function lower-cases to `date`.  An
unregistered function (inferred `NullType`) not named `date` is therefore
non-continuous, but e.g. `count(...)` (typed `Integer`) is continuous. -/
theorem c2_amended_type_classification :
    (∀ c : Column, iscontinuous (ColExpr.column c) = true ↔
        c.type ∈ [SqlType.date, SqlType.dateTime, SqlType.time, SqlType.smallInteger,
          SqlType.integer, SqlType.bigInteger, SqlType.float])
    ∧ (∀ (n : String) (a : ColExpr), iscontinuous (ColExpr.function n a)
        = (iscontinuousType (funcReturnType (lowerStr n) (ColExpr.sqlType a))
            || (lowerStr n == "date")))
    ∧ (∀ (n : String) (a : ColExpr),
        funcReturnType (lowerStr n) (ColExpr.sqlType a) = SqlType.nullType →
        lowerStr n ≠ "date" → iscontinuous (ColExpr.function n a) = false)
    ∧ (∀ a : ColExpr, iscontinuous (ColExpr.function "count" a) = true) := by
  refine ⟨fun c => ?_, fun n a => rfl, fun n a h hne => ?_, fun a => ?_⟩
  · rcases c with ⟨nm, ty⟩
    cases ty <;> simp [iscontinuous, ColExpr.sqlType, iscontinuousType]
  · show (iscontinuousType (funcReturnType (lowerStr n) (ColExpr.sqlType a))
        || (lowerStr n == "date")) = false
    rw [h, beq_eq_false_iff_ne.mpr hne]
    rfl
  · show (iscontinuousType (funcReturnType (lowerStr "count") (ColExpr.sqlType a))
        || (lowerStr "count" == "date")) = true
    have hc : funcReturnType (lowerStr "count") (ColExpr.sqlType a) = SqlType.integer := by
      show funcReturnType "count" (ColExpr.sqlType a) = SqlType.integer
      unfold funcReturnType
      rw [if_neg (by decide), if_pos (by decide)]
    rw [hc]
    rfl

/-- C2 witness: an unknown function name that is not `date` is classified
non-continuous. -/
theorem c2_witness :
    funcReturnType (lowerStr "myfn") (ColExpr.sqlType (ColExpr.column ⟨"x", SqlType.string⟩))
        = SqlType.nullType
    ∧ lowerStr "myfn" ≠ "date"
    ∧ iscontinuous (ColExpr.function "myfn" (ColExpr.column ⟨"x", SqlType.string⟩)) = false := by
  exact ⟨by decide, by decide,
    c2_amended_type_classification.2.2.1 "myfn" (ColExpr.column ⟨"x", SqlType.string⟩)
      (by decide) (by decide)⟩

/-- Helper: `sand` peels one clause. -/
lemma sand_cons (p : Pred) (l : List Pred) : sand (p :: l) = Pred.and2 p (sand l) := rfl

/-- Helper: `sor` peels one clause. -/
lemma sor_cons (p : Pred) (l : List Pred) : sor (p :: l) = Pred.or2 p (sor l) := rfl

/-- Helper: a conjunction built by `sand` is satisfied iff every clause
is. -/
lemma evalPred_sand (ρ : ColExpr → Value) (l : List Pred) :
    evalPred ρ (sand l) = l.all (evalPred ρ) := by
  induction l with
  | nil => rfl
  | cons p l ih =>
      rw [sand_cons]
      show (evalPred ρ p && evalPred ρ (sand l)) = (p :: l).all (evalPred ρ)
      rw [ih, List.all_cons]

/-- Helper: a disjunction built by `sor` is satisfied iff some clause is. -/
lemma evalPred_sor (ρ : ColExpr → Value) (l : List Pred) :
    evalPred ρ (sor l) = l.any (evalPred ρ) := by
  induction l with
  | nil => rfl
  | cons p l ih =>
      rw [sor_cons]
      show (evalPred ρ p || evalPred ρ (sor l)) = (p :: l).any (evalPred ρ)
      rw [ih, List.any_cons]

/-- Helper: `any` over a mapped list. -/
lemma list_any_map {α β : Type} (f : α → β) (l : List α) (p : β → Bool) :
    (l.map f).any p = l.any (fun x => p (f x)) := by
  induction l with
  | nil => rfl
  | cons a l ih => simp [List.any_cons, ih]

/-- Helper: the clauses compiled for one `(key, value)` pair are satisfied
exactly as the spec-side per-key semantics says. -/
lemma pairClauses_sound (F : String → Value → Value) (row : Row) (c : ColExpr)
    (fv : FilterValue) :
    (pairClauses c fv).all (evalPred (evalColExpr F row)) = specPairSat F row c fv := by
  cases fv with
  | scalar w => simp [pairClauses, specPairSat, evalPred]
  | list vs =>
      cases h : (iscontinuous c && vs.length == 2) with
      | true =>
          have hc : iscontinuous c = true := ((Bool.and_eq_true _ _).mp h).1
          have hlen : vs.length = 2 := by
            simpa using ((Bool.and_eq_true _ _).mp h).2
          match vs, hlen with
          | [a, b], _ => simp [pairClauses, specPairSat, hc, evalPred]
      | false =>
          rw [show pairClauses c (.list vs) = [sor (vs.map (fun v => Pred.eq c v))] from by
            simp [pairClauses, h]]
          rw [show specPairSat F row c (.list vs)
              = vs.any (fun w => veq (evalColExpr F row c) w) from by
            simp [specPairSat, h]]
          rw [show [sor (vs.map (fun v => Pred.eq c v))].all (evalPred (evalColExpr F row))
              = evalPred (evalColExpr F row) (sor (vs.map (fun v => Pred.eq c v))) from by
            simp]
          rw [evalPred_sor, list_any_map]
          rfl

/-- Helper: satisfaction of the clauses collected over a whole Filter Spec
is the conjunction of the per-key spec semantics. -/
lemma whereClauses_sound (F : String → Value → Value) (table : Table) (row : Row) :
    ∀ (filters : Filters) (cls : List Pred), whereClauses table filters = .ok cls →
      cls.all (evalPred (evalColExpr F row))
        = filters.all (fun kv =>
            match str2col kv.1 table with
            | .ok c => specPairSat F row c kv.2
            | .error _ => false) := by
  intro filters
  induction filters with
  | nil =>
      intro cls h
      injection h with h'
      subst h'
      rfl
  | cons kv rest ih =>
      obtain ⟨k, v⟩ := kv
      intro cls h
      rw [show whereClauses table ((k, v) :: rest)
          = (match str2col k table with
             | .error e => .error e
             | .ok c =>
                 match whereClauses table rest with
                 | .error e => .error e
                 | .ok more => .ok (pairClauses c v ++ more)) from rfl] at h
      cases hk : str2col k table with
      | error e => rw [hk] at h; cases h
      | ok c =>
          rw [hk] at h
          cases hr : whereClauses table rest with
          | error e => rw [hr] at h; cases h
          | ok more =>
              rw [hr] at h
              injection h with h'
              subst h'
              rw [List.all_append, List.all_cons, pairClauses_sound, ih more hr]
              simp only [hk]

/-- C1: a compiled Filter Spec is satisfied exactly when every `(key,
value)` pair's spec-side semantics holds — a half-open range (`>=` lower,
`<` upper, never both-inclusive) for a 2-element list over a continuous
expression, a membership disjunction of equalities for any other list, an
equality for a scalar — all pairs combined conjunctively; an empty Filter
Spec compiles to the tautology. -/
theorem c1_filter_compilation (F : String → Value → Value) (table : Table)
    (filters : Filters) (p : Pred) (row : Row)
    (h : where_clause table filters = .ok p) :
    rowMatches F row p = filters.all (fun kv =>
      match str2col kv.1 table with
      | .ok c => specPairSat F row c kv.2
      | .error _ => false)
    ∧ where_clause table [] = .ok Pred.tt
    ∧ (∀ (k : String) (c : ColExpr) (a b : Value), str2col k table = .ok c →
        iscontinuous c = true →
        where_clause table [(k, FilterValue.list [a, b])]
          = .ok (Pred.and2 (Pred.ge c a) (Pred.and2 (Pred.lt c b) Pred.tt)))
    ∧ (∀ (k : String) (c : ColExpr) (vs : List Value), str2col k table = .ok c →
        (iscontinuous c && vs.length == 2) = false →
        where_clause table [(k, FilterValue.list vs)]
          = .ok (Pred.and2 (sor (vs.map (fun w => Pred.eq c w))) Pred.tt))
    ∧ (∀ (k : String) (c : ColExpr) (w : Value), str2col k table = .ok c →
        where_clause table [(k, FilterValue.scalar w)]
          = .ok (Pred.and2 (Pred.eq c w) Pred.tt)) := by
  refine ⟨?_, rfl, fun k c a b hk hcont => ?_, fun k c vs hk hcont => ?_,
    fun k c w hk => ?_⟩
  · unfold where_clause at h
    cases hw : whereClauses table filters with
    | error e => rw [hw] at h; cases h
    | ok cls =>
        rw [hw] at h
        injection h with h'
        subst h'
        exact (evalPred_sand _ cls).trans (whereClauses_sound F table row filters cls hw)
  · unfold where_clause whereClauses
    rw [hk]
    simp only [pairClauses, hcont]
    rfl
  · unfold where_clause whereClauses
    rw [hk]
    simp only [pairClauses, hcont]
    rfl
  · unfold where_clause whereClauses
    rw [hk]
    rfl

/-- C1 witness: the filter on an integer column with a 2-element list is
satisfied by a row strictly inside the half-open range. -/
theorem c1_witness :
    where_clause ⟨"t", [⟨"age", SqlType.integer⟩]⟩ [("age", .list [.int 18, .int 30])]
      = .ok (Pred.and2 (Pred.ge (ColExpr.column ⟨"age", SqlType.integer⟩) (.int 18))
          (Pred.and2 (Pred.lt (ColExpr.column ⟨"age", SqlType.integer⟩) (.int 30)) Pred.tt))
    ∧ rowMatches (fun _ v => v) [("age", Value.int 20)]
        (Pred.and2 (Pred.ge (ColExpr.column ⟨"age", SqlType.integer⟩) (.int 18))
          (Pred.and2 (Pred.lt (ColExpr.column ⟨"age", SqlType.integer⟩) (.int 30)) Pred.tt))
      = [("age", FilterValue.list [Value.int 18, Value.int 30])].all (fun kv =>
          match str2col kv.1 ⟨"t", [⟨"age", SqlType.integer⟩]⟩ with
          | .ok c => specPairSat (fun _ v => v) [("age", Value.int 20)] c kv.2
          | .error _ => false) := by
  refine ⟨by decide, ?_⟩
  exact (c1_filter_compilation (fun _ v => v) ⟨"t", [⟨"age", SqlType.integer⟩]⟩
    [("age", FilterValue.list [Value.int 18, Value.int 30])]
    (Pred.and2 (Pred.ge (ColExpr.column ⟨"age", SqlType.integer⟩) (.int 18))
      (Pred.and2 (Pred.lt (ColExpr.column ⟨"age", SqlType.integer⟩) (.int 30)) Pred.tt))
    [("age", Value.int 20)] (by decide)).1

/-- Helper: a word character is not whitespace. -/
lemma isWordChar_not_space {c : Char} (h : isWordChar c = true) : isSpaceChar c = false := by
  cases hs : isSpaceChar c with
  | false => rfl
  | true =>
      exfalso
      unfold isSpaceChar at hs
      simp only [Bool.or_eq_true, beq_iff_eq] at hs
      have hor : c = ' ' ∨ c = '\t' ∨ c = '\n' ∨ c = '\r' ∨ c = '\x0b' ∨ c = '\x0c' := by
        tauto
      rcases hor with rfl | rfl | rfl | rfl | rfl | rfl <;> exact absurd h (by decide)

/-- Helper: a string whose characters are empty is the empty string. -/
lemma data_nil (x : String) (h : x.data = []) : x = "" := by
  cases x with
  | mk d =>
      cases h
      rfl

/-- Helper: leading-whitespace stripping leaves a word-headed list
unchanged. -/
lemma dropWhile_space_word {f rest : List Char} (hne : f ≠ [])
    (hw : f.all isWordChar = true) :
    (f ++ rest).dropWhile isSpaceChar = f ++ rest := by
  cases f with
  | nil => exact absurd rfl hne
  | cons c t =>
      have hc : isWordChar c = true := by
        simp only [List.all_cons, Bool.and_eq_true] at hw
        exact hw.1
      rw [List.cons_append, List.dropWhile_cons, isWordChar_not_space hc]
      simp

/-- Helper: the greedy word run of `f ++ '(' :: rest` is exactly `f`, and
what remains starts at the parenthesis. -/
lemma takeWhile_word {f rest : List Char} (hw : f.all isWordChar = true) :
    (f ++ '(' :: rest).takeWhile isWordChar = f
    ∧ (f ++ '(' :: rest).dropWhile isWordChar = '(' :: rest := by
  induction f with
  | nil =>
      constructor
      · rw [List.nil_append, List.takeWhile_cons,
          show isWordChar '(' = false from by decide]
        simp
      · rw [List.nil_append, List.dropWhile_cons,
          show isWordChar '(' = false from by decide]
        simp
  | cons c t ih =>
      simp only [List.all_cons, Bool.and_eq_true] at hw
      obtain ⟨hc, ht⟩ := hw
      obtain ⟨ih1, ih2⟩ := ih ht
      constructor
      · rw [List.cons_append, List.takeWhile_cons, hc]
        simp [ih1]
      · rw [List.cons_append, List.dropWhile_cons, hc]
        simpa using ih2

/-- Helper: on `contents ++ ')'` with nonempty, newline-free contents, the
non-greedy scan closes exactly at the final parenthesis. -/
lemma scanClose_closes : ∀ (l acc : List Char), '\n' ∉ l → (acc ≠ [] ∨ l ≠ []) →
    scanClose acc (l ++ [')']) = some (acc.reverse ++ l) := by
  intro l
  induction l with
  | nil =>
      intro acc hnl hne
      have hacc : acc ≠ [] := by
        rcases hne with h | h
        · exact h
        · exact absurd rfl h
      show scanClose acc [')'] = some (acc.reverse ++ [])
      unfold scanClose
      rw [if_pos (by decide), if_neg (fun hemp => hacc (List.isEmpty_iff.mp hemp))]
      simp
  | cons c l' ih =>
      intro acc hnl hne
      have hc : c ≠ '\n' := by
        rintro rfl
        exact hnl (List.mem_cons_self _ _)
      have hnl' : '\n' ∉ l' := fun h => hnl (List.mem_cons_of_mem c h)
      have hcond1 : (c == ')' && (l' ++ [')']).all isSpaceChar) = false := by
        rw [List.all_append, show ([')'].all isSpaceChar) = false from by decide]
        simp
      have hcond2 : (c == '\n') = false := beq_eq_false_iff_ne.mpr hc
      show scanClose acc (c :: (l' ++ [')'])) = some (acc.reverse ++ (c :: l'))
      unfold scanClose
      rw [hcond1, hcond2]
      simp only [Bool.false_eq_true, if_false]
      rw [ih (c :: acc) hnl' (Or.inl (List.cons_ne_nil c acc)),
        List.reverse_cons, List.append_assoc]
      rfl

/-- Helper: the pattern splits a built call `f(inner)` into its name and
its contents, provided the name is a nonempty word run and the contents
are nonempty and newline-free. -/
lemma function_split_mk {f inner : List Char} (hfne : f ≠ [])
    (hfw : f.all isWordChar = true) (hine : inner ≠ []) (hinl : '\n' ∉ inner) :
    function_split (f ++ '(' :: (inner ++ [')'])) = some (String.mk f, inner) := by
  obtain ⟨ht, hd⟩ := @takeWhile_word f (inner ++ [')']) hfw
  simp only [function_split, dropWhile_space_word hfne hfw, ht, hd]
  rw [if_neg (fun hemp => hfne (List.isEmpty_iff.mp hemp)),
    scanClose_closes inner [] hinl (Or.inr hine)]
  rfl

/-- Helper: a bare word run is a terminal: the pattern does not match. -/
lemma function_split_terminal {x : List Char} (hw : x.all isWordChar = true) :
    function_split x = none := by
  cases x with
  | nil => rfl
  | cons c t =>
      have hall : ∀ a ∈ c :: t, isWordChar a = true := by
        simpa [List.all_eq_true] using hw
      have hdrop : (c :: t).dropWhile isSpaceChar = c :: t := by
        rw [List.dropWhile_cons, isWordChar_not_space (hall c (List.mem_cons_self c t))]
        simp
      have hdrop2 : (c :: t).dropWhile isWordChar = [] :=
        List.dropWhile_eq_nil_iff.mpr hall
      simp only [function_split, hdrop, hdrop2]

/-- Helper: `mkL` on an empty function list. -/
lemma mkL_nil (x : List Char) : mkL [] x = x := rfl

/-- Helper: `mkL` peels one function name. -/
lemma mkL_cons (f : List Char) (fs : List (List Char)) (x : List Char) :
    mkL (f :: fs) x = f ++ '(' :: (mkL fs x ++ [')']) := rfl

/-- Helper: a built expression over a nonempty terminal is nonempty. -/
lemma mkL_ne_nil (fs : List (List Char)) (x : List Char) (hx : x ≠ []) :
    mkL fs x ≠ [] := by
  cases fs with
  | nil => exact hx
  | cons f fs' =>
      rw [mkL_cons]
      simp

/-- Helper: a built expression over word-run names and terminal contains no
newline. -/
lemma mkL_no_newline : ∀ (fs : List (List Char)) (x : List Char),
    (∀ f ∈ fs, f.all isWordChar = true) → x.all isWordChar = true →
    '\n' ∉ mkL fs x := by
  intro fs
  induction fs with
  | nil =>
      intro x _ hx hmem
      exact absurd (List.all_eq_true.mp hx '\n' hmem) (by decide)
  | cons f fs' ih =>
      intro x hfs hx hmem
      rw [mkL_cons] at hmem
      rcases List.mem_append.mp hmem with hmf | hmr
      · exact absurd (List.all_eq_true.mp (hfs f (List.mem_cons_self f fs')) '\n' hmf)
          (by decide)
      · rcases List.mem_cons.mp hmr with hpar | hmr'
        · exact absurd hpar (by decide)
        · rcases List.mem_append.mp hmr' with hmi | hpar'
          · exact ih x (fun g hg => hfs g (List.mem_cons_of_mem f hg)) hx hmi
          · rcases List.mem_cons.mp hpar' with h | h
            · exact absurd h (by decide)
            · exact absurd h (List.not_mem_nil _)

/-- Helper: with enough fuel, the peeling loop dismantles a built nested
call expression into its function names (outermost first) and terminal. -/
lemma str2colQueueF_mkL : ∀ (fs : List (List Char)) (x : List Char) (fuel : Nat),
    (∀ f ∈ fs, f ≠ [] ∧ f.all isWordChar = true) →
    x ≠ [] → x.all isWordChar = true →
    (mkL fs x).length ≤ fuel →
    str2colQueueF fuel (mkL fs x) = (fs.map String.mk, x) := by
  intro fs
  induction fs with
  | nil =>
      intro x fuel _ _ hxw _
      rw [mkL_nil]
      exact str2colQueueF_of_none (function_split_terminal hxw) fuel
  | cons f fs' ih =>
      intro x fuel hfs hx hxw hfuel
      obtain ⟨hfne, hfw⟩ := hfs f (List.mem_cons_self f fs')
      have hfs' : ∀ g ∈ fs', g ≠ [] ∧ g.all isWordChar = true :=
        fun g hg => hfs g (List.mem_cons_of_mem f hg)
      have hinner_ne : mkL fs' x ≠ [] := mkL_ne_nil fs' x hx
      have hinner_nl : '\n' ∉ mkL fs' x :=
        mkL_no_newline fs' x (fun g hg => (hfs' g hg).2) hxw
      have hsplit : function_split (mkL (f :: fs') x) = some (String.mk f, mkL fs' x) := by
        rw [mkL_cons]
        exact function_split_mk hfne hfw hinner_ne hinner_nl
      have hlen : (mkL (f :: fs') x).length
          = f.length + ((mkL fs' x).length + 2) := by
        rw [mkL_cons]
        simp only [List.length_append, List.length_cons, List.length_nil]
      cases fuel with
      | zero =>
          exfalso
          have h0 : (mkL (f :: fs') x).length = 0 := Nat.le_zero.mp hfuel
          rw [hlen] at h0
          omega
      | succ fuel' =>
          have hfuel' : (mkL fs' x).length ≤ fuel' := by
            rw [hlen] at hfuel
            omega
          show (match function_split (mkL (f :: fs') x) with
            | none => ([], mkL (f :: fs') x)
            | some (n, inner) =>
                let r := str2colQueueF fuel' inner
                (n :: r.1, r.2)) = ((f :: fs').map String.mk, x)
          rw [hsplit]
          show (String.mk f :: (str2colQueueF fuel' (mkL fs' x)).1,
            (str2colQueueF fuel' (mkL fs' x)).2) = _
          rw [ih x fuel' hfs' hx hxw hfuel']
          rfl

/-- Helper: the characters of a built field expression. -/
lemma mkFieldExpr_data : ∀ (fs : List String) (x : String),
    (mkFieldExpr fs x).data = mkL (fs.map String.data) x.data := by
  intro fs x
  induction fs with
  | nil => rfl
  | cons f fs' ih =>
      show (f ++ "(" ++ mkFieldExpr fs' x ++ ")").data = _
      rw [String.data_append, String.data_append, String.data_append, ih]
      show f.data ++ ['('] ++ mkL (fs'.map String.data) x.data ++ [')']
        = f.data ++ '(' :: (mkL (fs'.map String.data) x.data ++ [')'])
      simp [List.append_assoc]

/-- C3: for every field-expression string of nested single-argument calls
over a schema column — function names being nonempty word runs and the
terminal a nonempty word-run column name — `str2col` peels the function
names outermost-first and applies them to the terminal column
innermost-to-outermost, yielding exactly the nested function expression. -/
theorem c3_expression_parsing (table : Table) (fs : List String) (x : String)
    (col : Column)
    (hfs : ∀ f ∈ fs, f ≠ "" ∧ f.data.all isWordChar = true)
    (hx : x ≠ "") (hxw : x.data.all isWordChar = true)
    (hcol : table.columns.find? (fun c => c.name == x) = some col) :
    str2col (mkFieldExpr fs x) table
      = .ok (fs.foldr ColExpr.function (ColExpr.column col)) := by
  have hxd : x.data ≠ [] := fun h => hx (data_nil x h)
  have hfsd : ∀ f ∈ fs.map String.data, f ≠ [] ∧ f.all isWordChar = true := by
    intro f hf
    obtain ⟨g, hg, rfl⟩ := List.mem_map.mp hf
    exact ⟨fun h => (hfs g hg).1 (data_nil g h), (hfs g hg).2⟩
  have hfuel : (mkL (fs.map String.data) x.data).length ≤ (mkFieldExpr fs x).length := by
    rw [show (mkFieldExpr fs x).length = (mkFieldExpr fs x).data.length from rfl,
      mkFieldExpr_data]
  have hq := str2colQueueF_mkL (fs.map String.data) x.data (mkFieldExpr fs x).length
    hfsd hxd hxw hfuel
  have hmk : (fs.map String.data).map String.mk = fs := by
    rw [List.map_map, show String.mk ∘ String.data = id from funext (fun s => rfl),
      List.map_id]
  have hxstar : x ≠ "*" := by
    rintro rfl
    exact absurd hxw (by decide)
  show (getcolumn table
      (String.mk (str2colQueueF (mkFieldExpr fs x).length (mkFieldExpr fs x).data).2)).map
      (fun col => (str2colQueueF (mkFieldExpr fs x).length
        (mkFieldExpr fs x).data).1.foldr ColExpr.function (ColExpr.column col)) = _
  rw [mkFieldExpr_data, hq]
  show (getcolumn table x).map
      (fun col => ((fs.map String.data).map String.mk).foldr ColExpr.function
        (ColExpr.column col)) = _
  rw [hmk]
  unfold getcolumn
  rw [if_neg hxstar, hcol]
  rfl

/-- C3 witness: `count(distinct(x))` parses to `count` applied to
`distinct` applied to column `x`. -/
theorem c3_witness :
    (∀ f ∈ ["count", "distinct"], f ≠ "" ∧ f.data.all isWordChar = true)
    ∧ ("x" : String) ≠ ""
    ∧ ("x" : String).data.all isWordChar = true
    ∧ (⟨"t", [⟨"x", SqlType.string⟩]⟩ : Table).columns.find? (fun c => c.name == "x")
        = some ⟨"x", SqlType.string⟩
    ∧ mkFieldExpr ["count", "distinct"] "x" = "count(distinct(x))"
    ∧ str2col "count(distinct(x))" ⟨"t", [⟨"x", SqlType.string⟩]⟩
        = .ok (ColExpr.function "count" (ColExpr.function "distinct"
            (ColExpr.column ⟨"x", SqlType.string⟩))) := by
  refine ⟨by decide, by decide, by decide, by decide, by decide, ?_⟩
  have h := c3_expression_parsing ⟨"t", [⟨"x", SqlType.string⟩]⟩ ["count", "distinct"] "x"
    ⟨"x", SqlType.string⟩ (by decide) (by decide) (by decide) (by decide)
  rw [show mkFieldExpr ["count", "distinct"] "x" = "count(distinct(x))" from by decide] at h
  exact h

end SqlRest
